import Mathlib

/-!
Verification of the stockbot disposal-tracking core against its code.

The embedding below translates the relevant parts of `daily_recorder.py`
and `dashboard.py`:

* `parseDisposalDate` embeds `parse_disposal_date` (the regex
  `至(\d{3})年(\d{1,2})月(\d{1,2})日` searched over the content, ROC year
  + 1911, constructing a `datetime` which validates the calendar date).
* `normCode` embeds the code normalization, the join of
  `filter(str.isdigit, str(x))`.
* `jailKeep` / `newJailCodes` embed the per-row watch-list decision
  `if end_dt and end_dt >= datetime.now(): new_jail_codes.append(code)`.
* `updateJail` embeds `list(set(existing_jail + new_jail_codes))`,
  with a deterministic duplicate-removal order standing in for the
  arbitrary iteration order of a Python set (membership-faithful).
* `addToJail` embeds `add_to_jail` from `dashboard.py`.
* `runRows` / `runBatch` embed the control flow of the single
  `try/except` that wraps both scrape-and-extract loops in
  `update_data`: a row-level exception aborts the whole block, keeping
  whatever was appended before the failure.

Dates are modelled as year/month/day triples of naturals with the
proleptic Gregorian validity check performed by the Python `datetime`
constructor; a `datetime` value is a date paired with a
seconds-within-day component.
-/

namespace StockBot

/-- A calendar date as carried by a Python `datetime` (time-of-day kept
separately where it matters). -/
structure Date where
  y : Nat
  m : Nat
  d : Nat
deriving DecidableEq

/-- Gregorian leap-year rule, as implemented by Python `datetime`. -/
def isLeap (y : Nat) : Bool :=
  y % 4 = 0 && (y % 100 ≠ 0 || y % 400 = 0)

/-- Days in a month, as validated by Python `datetime`. -/
def daysInMonth (y m : Nat) : Nat :=
  if m = 2 then (if isLeap y then 29 else 28)
  else if m = 4 ∨ m = 6 ∨ m = 9 ∨ m = 11 then 30
  else 31

/-- The validity check performed by the `datetime(year, month, day)`
constructor (`MINYEAR = 1`, `MAXYEAR = 9999`); failure raises and is
swallowed by the `except` clause. -/
def validDateB (y m d : Nat) : Bool :=
  decide (1 ≤ y) && decide (y ≤ 9999) && decide (1 ≤ m) && decide (m ≤ 12)
    && decide (1 ≤ d) && decide (d ≤ daysInMonth y m)

/-- Chronological (lexicographic) order on dates, as used by Python
`datetime` comparison. -/
def dateLt (a b : Date) : Prop :=
  a.y < b.y ∨ (a.y = b.y ∧ (a.m < b.m ∨ (a.m = b.m ∧ a.d < b.d)))

instance (a b : Date) : Decidable (dateLt a b) := by
  unfold dateLt; infer_instance

/-- A `datetime` value: a date with a seconds-within-day component.
`parse_disposal_date` returns midnight values (second component `0`);
`datetime.now()` generally carries a nonzero time of day. -/
def dtLt (a b : Date × Nat) : Prop :=
  dateLt a.1 b.1 ∨ (a.1 = b.1 ∧ a.2 < b.2)

instance (a b : Date × Nat) : Decidable (dtLt a b) := by
  unfold dtLt; infer_instance

/-- Modelled from the spec: the release-date convention, `release_date =
end_date + 1 calendar day` (the day after the stated restriction end
date).  The source never computes this value; it is needed to state the
spec claims that are phrased in terms of `release_date`. -/
def nextDay (e : Date) : Date :=
  if e.d < daysInMonth e.y e.m then ⟨e.y, e.m, e.d + 1⟩
  else if e.m < 12 then ⟨e.y, e.m + 1, 1⟩
  else ⟨e.y + 1, 1, 1⟩

/-- Numeric value of an ASCII digit character. -/
def digitVal (c : Char) : Nat := c.toNat - 48

/-- Value denoted by a list of decimal digit characters (what
`int(match.group(i))` computes on the captured digits). -/
def digitsToNat (l : List Char) : Nat :=
  l.foldl (fun a c => a * 10 + digitVal c) 0

/-- Match the regex fragment `(\d{1,2})sep` at the head of the input:
greedily try two digits followed by `sep`, then one digit followed by
`sep`; return the captured number and the remaining input. -/
def matchNum2 (sep : Char) : List Char → Option (Nat × List Char)
  | a :: b :: rest =>
    if a.isDigit ∧ b.isDigit ∧ rest.head? = some sep then
      some (digitsToNat [a, b], rest.tail)
    else if a.isDigit ∧ b = sep then
      some (digitsToNat [a], rest)
    else none
  | _ => none

/-- Attempt the pattern `至(\d{3})年(\d{1,2})月(\d{1,2})日` at the start
of the input, returning the three captured numbers. -/
def matchAt (l : List Char) : Option (Nat × Nat × Nat) :=
  match l with
  | z :: c1 :: c2 :: c3 :: n :: rest =>
    if z = '至' ∧ c1.isDigit ∧ c2.isDigit ∧ c3.isDigit ∧ n = '年' then
      (matchNum2 '月' rest).bind fun mr =>
        (matchNum2 '日' mr.2).map fun dr =>
          (digitsToNat [c1, c2, c3], mr.1, dr.1)
    else none
  | _ => none

/-- `re.search` semantics for the fixed pattern: try each start
position from left to right and return the first successful match. -/
def searchPattern : List Char → Option (Nat × Nat × Nat)
  | [] => none
  | c :: rest => (matchAt (c :: rest)).orElse fun _ => searchPattern rest

/-- `parse_disposal_date` from `daily_recorder.py`: search the content
for `至(\d{3})年(\d{1,2})月(\d{1,2})日`, add 1911 to the captured
three-digit year, and build the `datetime`; any failure (no match or an
invalid calendar date) yields `None`. -/
def parseDisposalDate (content : String) : Option Date :=
  (searchPattern content.toList).bind fun ymd =>
    if validDateB (ymd.1 + 1911) ymd.2.1 ymd.2.2 then
      some ⟨ymd.1 + 1911, ymd.2.1, ymd.2.2⟩
    else none

/-- Code normalization: the join of `filter(str.isdigit, str(x))`, which
keeps every digit character of the field, in order. -/
def normCode (s : String) : String :=
  ⟨s.toList.filter (fun c => c.isDigit)⟩

/-- The per-row watch-list decision in `update_data`:
`end_dt = parse_disposal_date(content)` followed by
`if end_dt and end_dt >= datetime.now()`. -/
def jailKeep (content : String) (now : Date × Nat) : Bool :=
  match parseDisposalDate content with
  | some e => decide (¬ dtLt (e, 0) now)
  | none => false

/-- The `new_jail_codes` accumulation over the disposal-table rows, each
row giving its raw code field and its announcement content. -/
def newJailCodes (rows : List (String × String)) (now : Date × Nat) :
    List String :=
  rows.filterMap fun rc =>
    if jailKeep rc.2 now then some (normCode rc.1) else none

/-- The watch-list merge in `update_data`:
`updated_jail = list(set(existing_jail + new_jail_codes))`. -/
def updateJail (existing newCodes : List String) : List String :=
  (existing ++ newCodes).dedup

/-- `add_to_jail` from `dashboard.py`: normalize to digit characters,
then append and return `True` exactly when the result is non-empty and
not already present; otherwise leave the list unchanged and return
`False`. -/
def addToJail (input : String) (current : List String) :
    List String × Bool :=
  let code := normCode input
  if code ≠ "" ∧ code ∉ current then (current ++ [code], true)
  else (current, false)

/-- The attention-table loop in `update_data`: one history row is
appended per input row, whatever the normalized code turns out to be. -/
def buildAttentionData (rows : List String) (today : String) :
    List (String × String × String) :=
  rows.map fun r => (today, normCode r, "注意股")

/-- One row of the scrape-and-extract phase: either extracted data or a
raised exception. -/
def RowOutcome (α : Type) : Type := Except Unit α

/-- Row loop of one document inside the single `try` of `update_data`:
appends successive results until a row raises; the boolean reports
whether the document completed without an exception. -/
def runRows {α : Type} : List (Except Unit α) → List α × Bool
  | [] => ([], true)
  | Except.ok a :: rest =>
    let p := runRows rest
    (a :: p.1, p.2)
  | Except.error _ :: _ => ([], false)

/-- The whole fetch-and-extract phase of `update_data`: both documents
are processed inside one `try/except`, so the first exception ends the
entire phase, keeping only the rows accumulated so far. -/
def runBatch {α : Type} : List (List (Except Unit α)) → List α
  | [] => []
  | doc :: docs =>
    let p := runRows doc
    if p.2 then p.1 ++ runBatch docs else p.1

/-- Modelled from the spec: the claimed per-row skip semantics — every
failing row is skipped individually and all remaining rows and
documents are still processed. -/
def skipBatch {α : Type} (docs : List (List (Except Unit α))) : List α :=
  docs.flatMap fun doc => doc.filterMap Except.toOption

/-- Decimal digit character for a digit value (clamped at 9). -/
def digitChar (k : Nat) : Char :=
  if k = 0 then '0' else if k = 1 then '1' else if k = 2 then '2'
  else if k = 3 then '3' else if k = 4 then '4' else if k = 5 then '5'
  else if k = 6 then '6' else if k = 7 then '7' else if k = 8 then '8'
  else '9'

/-- Decimal rendering of a natural number as digit characters. -/
def natChars (n : Nat) : List Char :=
  if _h : n < 10 then [digitChar n]
  else natChars (n / 10) ++ [digitChar (n % 10)]
decreasing_by exact Nat.div_lt_self (by omega) (by omega)

/-- The period text `至<y>年<m>月<d>日` for a numeric date triple. -/
def renderROC (y m d : Nat) : String :=
  ⟨'至' :: (natChars y ++ '年' :: (natChars m ++ '月' :: (natChars d ++ ['日'])))⟩

/-! ### Digit rendering lemmas -/

lemma digitChar_isDigit (k : Nat) : (digitChar k).isDigit = true := by
  unfold digitChar
  split_ifs <;> decide

lemma digitVal_digitChar {k : Nat} (h : k < 10) :
    digitVal (digitChar k) = k := by
  unfold digitChar
  split_ifs with h0 h1 h2 h3 h4 h5 h6 h7 h8
  · subst h0; decide
  · subst h1; decide
  · subst h2; decide
  · subst h3; decide
  · subst h4; decide
  · subst h5; decide
  · subst h6; decide
  · subst h7; decide
  · subst h8; decide
  · have h9 : k = 9 := by omega
    subst h9; decide

lemma natChars_lt {n : Nat} (h : n < 10) : natChars n = [digitChar n] := by
  rw [natChars]
  simp [h]

lemma natChars_ge {n : Nat} (h : ¬ n < 10) :
    natChars n = natChars (n / 10) ++ [digitChar (n % 10)] := by
  conv_lhs => rw [natChars]
  simp [h]

lemma natChars_two {n : Nat} (h1 : 10 ≤ n) (h2 : n < 100) :
    natChars n = [digitChar (n / 10), digitChar (n % 10)] := by
  rw [natChars_ge (by omega), natChars_lt (by omega : n / 10 < 10)]
  rfl

lemma natChars_three {n : Nat} (h1 : 100 ≤ n) (h2 : n < 1000) :
    natChars n
      = [digitChar (n / 100), digitChar (n / 10 % 10), digitChar (n % 10)] := by
  rw [natChars_ge (by omega), natChars_two (by omega) (by omega),
      Nat.div_div_eq_div_mul]
  rfl

lemma natChars_four {n : Nat} (h1 : 1000 ≤ n) (h2 : n < 10000) :
    natChars n
      = [digitChar (n / 1000), digitChar (n / 100 % 10),
         digitChar (n / 10 % 10), digitChar (n % 10)] := by
  rw [natChars_ge (by omega), natChars_three (by omega) (by omega),
      Nat.div_div_eq_div_mul, Nat.div_div_eq_div_mul]
  rfl

lemma mem_natChars_isDigit {n : Nat} {c : Char} (h : c ∈ natChars n) :
    c.isDigit = true := by
  induction n using Nat.strong_induction_on with
  | _ n ih =>
    by_cases hn : n < 10
    · rw [natChars_lt hn, List.mem_singleton] at h
      subst h; exact digitChar_isDigit n
    · rw [natChars_ge hn, List.mem_append, List.mem_singleton] at h
      rcases h with h | h
      · exact ih (n / 10) (Nat.div_lt_self (by omega) (by omega)) h
      · subst h; exact digitChar_isDigit (n % 10)

lemma digitsToNat_snoc (l : List Char) (c : Char) :
    digitsToNat (l ++ [c]) = digitsToNat l * 10 + digitVal c := by
  unfold digitsToNat
  rw [List.foldl_append]
  rfl

lemma digitsToNat_natChars (n : Nat) : digitsToNat (natChars n) = n := by
  induction n using Nat.strong_induction_on with
  | _ n ih =>
    by_cases hn : n < 10
    · rw [natChars_lt hn]
      show 0 * 10 + digitVal (digitChar n) = n
      rw [digitVal_digitChar hn]; omega
    · rw [natChars_ge hn, digitsToNat_snoc,
          ih (n / 10) (Nat.div_lt_self (by omega) (by omega)),
          digitVal_digitChar (Nat.mod_lt _ (by omega))]
      omega

/-! ### Pattern-matching lemmas -/

lemma matchNum2_one {m : Nat} (hm : m < 10) {sep : Char}
    (hsep : sep.isDigit = false) (rest : List Char) :
    matchNum2 sep (digitChar m :: sep :: rest) = some (m, rest) := by
  have h1 : ¬ ((digitChar m).isDigit = true ∧ sep.isDigit = true
      ∧ (sep :: rest).tail.head? = some sep) := by
    rintro ⟨-, hb, -⟩
    rw [hsep] at hb
    exact Bool.noConfusion hb
  simp only [matchNum2]
  rw [if_neg (by simpa using h1), if_pos (by simp [digitChar_isDigit])]
  simp [digitsToNat, digitVal_digitChar hm]

lemma matchNum2_two {m : Nat} (h1 : 10 ≤ m) (h2 : m < 100) (sep : Char)
    (rest : List Char) :
    matchNum2 sep (digitChar (m / 10) :: digitChar (m % 10) :: sep :: rest)
      = some (m, rest) := by
  simp only [matchNum2]
  rw [if_pos (by simp [digitChar_isDigit])]
  have hv : digitsToNat [digitChar (m / 10), digitChar (m % 10)] = m := by
    simp [digitsToNat, digitVal_digitChar (show m / 10 < 10 by omega),
          digitVal_digitChar (show m % 10 < 10 by omega)]
    omega
  simp [hv]

lemma matchNum2_natChars {m : Nat} (h1 : 1 ≤ m) (h2 : m < 100) {sep : Char}
    (hsep : sep.isDigit = false) (rest : List Char) :
    matchNum2 sep (natChars m ++ sep :: rest) = some (m, rest) := by
  by_cases hm : m < 10
  · rw [natChars_lt hm, List.cons_append, List.nil_append]
    exact matchNum2_one hm hsep rest
  · rw [natChars_two (by omega) h2, List.cons_append, List.cons_append,
        List.nil_append]
    exact matchNum2_two (by omega) h2 sep rest

lemma matchAt_render {y m d : Nat} (hy1 : 100 ≤ y) (hy2 : y ≤ 999)
    (hm1 : 1 ≤ m) (hm2 : m ≤ 99) (hd1 : 1 ≤ d) (hd2 : d ≤ 99) :
    matchAt ('至' :: (natChars y ++ '年' ::
        (natChars m ++ '月' :: (natChars d ++ ['日']))))
      = some (y, m, d) := by
  rw [natChars_three hy1 (by omega)]
  simp only [List.cons_append, List.nil_append, matchAt]
  rw [if_pos (by simp [digitChar_isDigit])]
  have hmonth : matchNum2 '月' (natChars m ++ '月' :: (natChars d ++ ['日']))
      = some (m, natChars d ++ ['日']) :=
    matchNum2_natChars hm1 (by omega) (by decide) _
  have hday : matchNum2 '日' (natChars d ++ ['日']) = some (d, []) := by
    have : natChars d ++ ['日'] = natChars d ++ '日' :: [] := rfl
    rw [this]
    exact matchNum2_natChars hd1 (by omega) (by decide) []
  rw [hmonth, Option.some_bind, hday, Option.map_some']
  have hy : digitsToNat [digitChar (y / 100), digitChar (y / 10 % 10),
      digitChar (y % 10)] = y := by
    simp [digitsToNat, digitVal_digitChar (show y / 100 < 10 by omega),
          digitVal_digitChar (show y / 10 % 10 < 10 by omega),
          digitVal_digitChar (show y % 10 < 10 by omega)]
    omega
  rw [hy]

lemma searchPattern_head {c : Char} {rest : List Char} {r : Nat × Nat × Nat}
    (h : matchAt (c :: rest) = some r) :
    searchPattern (c :: rest) = some r := by
  simp only [searchPattern]
  rw [h]
  rfl

lemma matchAt_cons_none {x : Char} (hx : ¬ x = '至') (l : List Char) :
    matchAt (x :: l) = none := by
  rcases l with _ | ⟨a, _ | ⟨b, _ | ⟨c, _ | ⟨e, r⟩⟩⟩⟩ <;>
    simp [matchAt, hx]

lemma searchPattern_none {l : List Char} (h : '至' ∉ l) :
    searchPattern l = none := by
  induction l with
  | nil => rfl
  | cons c rest ih =>
    rw [List.mem_cons, not_or] at h
    simp only [searchPattern]
    rw [matchAt_cons_none (fun he => h.1 he.symm) rest]
    exact ih h.2

/-! ### Parsing the rendered period text -/

lemma daysInMonth_le (y m : Nat) : daysInMonth y m ≤ 31 := by
  unfold daysInMonth
  split_ifs <;> omega

lemma validDateB_bounds {y m d : Nat} (hv : validDateB y m d = true) :
    1 ≤ y ∧ y ≤ 9999 ∧ 1 ≤ m ∧ m ≤ 12 ∧ 1 ≤ d ∧ d ≤ 31 := by
  unfold validDateB at hv
  simp only [Bool.and_eq_true, decide_eq_true_eq] at hv
  have := daysInMonth_le y m
  omega

lemma parse_renderROC {y m d : Nat} (hy1 : 100 ≤ y) (hy2 : y ≤ 999)
    (hv : validDateB (y + 1911) m d = true) :
    parseDisposalDate (renderROC y m d) = some ⟨y + 1911, m, d⟩ := by
  obtain ⟨-, -, hm1, hm2, hd1, hd2⟩ := validDateB_bounds hv
  have hs : searchPattern (renderROC y m d).toList = some (y, m, d) :=
    searchPattern_head
      (matchAt_render hy1 hy2 hm1 (by omega) hd1 (by omega))
  unfold parseDisposalDate
  rw [hs, Option.some_bind]
  simp [hv]

lemma parse_render4 {Y m d : Nat} (h1 : 1000 ≤ Y) (h2 : Y ≤ 9999) :
    parseDisposalDate (renderROC Y m d) = none := by
  have hmat : matchAt ('至' :: (natChars Y ++ '年' ::
      (natChars m ++ '月' :: (natChars d ++ ['日'])))) = none := by
    rw [natChars_four h1 (by omega)]
    have he : ¬ digitChar (Y % 10) = '年' := by
      intro h
      have hd := digitChar_isDigit (Y % 10)
      rw [h] at hd
      exact absurd hd (by decide)
    simp only [List.cons_append, List.nil_append]
    simp [matchAt, he]
  have hnm : '至' ∉ (natChars Y ++ '年' ::
      (natChars m ++ '月' :: (natChars d ++ ['日']))) := by
    intro hm
    rcases List.mem_append.1 hm with h | h
    · exact absurd (mem_natChars_isDigit h) (by decide)
    · rcases List.mem_cons.1 h with h | h
      · exact absurd h (by decide)
      · rcases List.mem_append.1 h with h | h
        · exact absurd (mem_natChars_isDigit h) (by decide)
        · rcases List.mem_cons.1 h with h | h
          · exact absurd h (by decide)
          · rcases List.mem_append.1 h with h | h
            · exact absurd (mem_natChars_isDigit h) (by decide)
            · have h2 := List.mem_singleton.1 h
              exact absurd h2 (by decide)
  have hs : searchPattern (renderROC Y m d).toList = none := by
    show searchPattern ('至' :: (natChars Y ++ '年' ::
      (natChars m ++ '月' :: (natChars d ++ ['日'])))) = none
    simp only [searchPattern]
    rw [hmat]
    exact searchPattern_none hnm
  unfold parseDisposalDate
  rw [hs]
  rfl

/-! ### Date-order lemmas -/

lemma dateLt_nextDay (e : Date) : dateLt e (nextDay e) := by
  unfold dateLt nextDay
  split_ifs <;> simp

lemma dateLt_irrefl (a : Date) : ¬ dateLt a a := by
  unfold dateLt
  omega

lemma nextDay_ne (e : Date) : ¬ nextDay e = e := by
  intro h
  have hlt := dateLt_nextDay e
  rw [h] at hlt
  exact dateLt_irrefl e hlt

lemma dateLt_of_not_lt_of_lt {a b c : Date}
    (h1 : ¬ dateLt a b) (h2 : dateLt a c) : dateLt b c := by
  unfold dateLt at *
  omega

lemma dateLt_of_lt_of_not_lt {a b c : Date}
    (h1 : dateLt a b) (h2 : ¬ dateLt c b) : dateLt a c := by
  unfold dateLt at *
  omega

/-! ### Watch-list decision lemmas -/

lemma jailKeep_some {content : String} {e : Date} {now : Date × Nat}
    (h : parseDisposalDate content = some e) :
    jailKeep content now = true ↔ ¬ dtLt (e, 0) now := by
  unfold jailKeep
  rw [h]
  simp

lemma keep_release {content : String} {e today : Date} {frac : Nat}
    (h : parseDisposalDate content = some e)
    (hk : jailKeep content (today, frac) = true) :
    dateLt today (nextDay e) := by
  rw [jailKeep_some h] at hk
  have hne : ¬ dateLt e today := fun hlt => hk (Or.inl hlt)
  exact dateLt_of_not_lt_of_lt hne (dateLt_nextDay e)

lemma drop_expired {content : String} {e today : Date} {frac : Nat}
    (h : parseDisposalDate content = some e)
    (hr : ¬ dateLt today (nextDay e)) :
    jailKeep content (today, frac) = false := by
  have hlt : dtLt (e, 0) (today, frac) :=
    Or.inl (dateLt_of_lt_of_not_lt (dateLt_nextDay e) hr)
  unfold jailKeep
  rw [h]
  simp [hlt]

/-! ### Store-merge lemmas -/

lemma mem_updateJail {c : String} {ex nw : List String} :
    c ∈ updateJail ex nw ↔ c ∈ ex ∨ c ∈ nw := by
  unfold updateJail
  rw [List.mem_dedup, List.mem_append]

lemma updateJail_idem (S B : List String) :
    updateJail (updateJail S B) B = updateJail S B := by
  show ((S ++ B).dedup ++ B).dedup = (S ++ B).dedup
  obtain ⟨t, hts, ht⟩ := List.sublist_suffix_of_union S B.dedup
  have hsb : (S ++ B).dedup = t ++ B.dedup := by
    rw [List.dedup_append, ← ht]
  have hnd : t.Nodup ∧ B.dedup.Nodup ∧ t.Disjoint B.dedup := by
    rw [← List.nodup_append, ← hsb]
    exact List.nodup_dedup _
  rw [hsb, List.append_assoc, List.dedup_append,
      List.Subset.dedup_append_right (List.dedup_subset B),
      List.Disjoint.union_eq hnd.2.2, hnd.1.dedup]

lemma nodup_snoc {l : List String} {c : String} (hl : l.Nodup)
    (hc : c ∉ l) : (l ++ [c]).Nodup := by
  rw [List.nodup_append]
  refine ⟨hl, List.nodup_singleton c, ?_⟩
  intro a ha ha2
  rw [List.mem_singleton] at ha2
  subst ha2
  exact hc ha

lemma addToJail_eq (input : String) (l : List String) :
    addToJail input l
      = if normCode input ≠ "" ∧ normCode input ∉ l
        then (l ++ [normCode input], true) else (l, false) := rfl

lemma addToJail_nodup {input : String} {l : List String} (hl : l.Nodup) :
    ((addToJail input l).1).Nodup := by
  rw [addToJail_eq]
  split_ifs with h
  · exact nodup_snoc hl h.2
  · exact hl

/-! ### Fetch-and-extract control-flow lemmas -/

lemma runRows_okmap {α : Type} (l : List α) :
    runRows (l.map Except.ok) = (l, true) := by
  induction l with
  | nil => rfl
  | cons a t ih => simp [runRows, ih]

lemma runRows_abort {α : Type} (pre : List α)
    (post : List (Except Unit α)) :
    runRows (pre.map Except.ok ++ Except.error () :: post) = (pre, false) := by
  induction pre with
  | nil => rfl
  | cons a t ih => simp [runRows, ih]

/-! ### Claim theorems -/

/-- Claim C1: an extracted disposal record is appended to the watch-list
only if its release date (the day after the parsed restriction end date)
is strictly after the logical today; a record whose release date is at
or before today is dropped at normalization time. -/
theorem c1_persist_only_future_release (content : String) (e today : Date)
    (frac : Nat) (h : parseDisposalDate content = some e) :
    (jailKeep content (today, frac) = true → dateLt today (nextDay e))
    ∧ (¬ dateLt today (nextDay e)
        → jailKeep content (today, frac) = false) :=
  ⟨keep_release h, drop_expired h⟩

/-- Witness for C1 at the period text 至114年12月31日 (end date
2025-12-31) with logical now 2025-12-20 plus one hour. -/
theorem c1_witness :
    (jailKeep "至114年12月31日" (⟨2025, 12, 20⟩, 3600) = true
        → dateLt ⟨2025, 12, 20⟩ (nextDay ⟨2025, 12, 31⟩))
    ∧ (¬ dateLt ⟨2025, 12, 20⟩ (nextDay ⟨2025, 12, 31⟩)
        → jailKeep "至114年12月31日" (⟨2025, 12, 20⟩, 3600) = false) :=
  c1_persist_only_future_release "至114年12月31日" ⟨2025, 12, 31⟩
    ⟨2025, 12, 20⟩ 3600 (by decide)

/-- Counterexample to C2: on 至114年12月31日 the converter returns the
end date 2025-12-31 itself, not end date plus one day (2026-01-01). -/
theorem c2_counterexample :
    parseDisposalDate "至114年12月31日" = some ⟨2025, 12, 31⟩
    ∧ nextDay ⟨2025, 12, 31⟩ = ⟨2026, 1, 1⟩
    ∧ ¬ (⟨2025, 12, 31⟩ : Date) = ⟨2026, 1, 1⟩ := by decide

/-- Amended C2: for every period text from which an end date is
extracted, the converter returns exactly that end date, never the end
date plus one calendar day. -/
theorem c2_amended_returns_end_date (y m d : Nat) (hy1 : 100 ≤ y)
    (hy2 : y ≤ 999) (hv : validDateB (y + 1911) m d = true) :
    parseDisposalDate (renderROC y m d) = some ⟨y + 1911, m, d⟩
    ∧ ¬ parseDisposalDate (renderROC y m d)
        = some (nextDay ⟨y + 1911, m, d⟩) := by
  have h := parse_renderROC hy1 hy2 hv
  refine ⟨h, ?_⟩
  rw [h]
  intro h2
  exact nextDay_ne _ (Option.some.inj h2).symm

/-- Witness for the amended C2 at ROC 114/12/31. -/
theorem c2_witness :
    parseDisposalDate (renderROC 114 12 31) = some ⟨2025, 12, 31⟩
    ∧ ¬ parseDisposalDate (renderROC 114 12 31)
        = some (nextDay ⟨2025, 12, 31⟩) :=
  c2_amended_returns_end_date 114 12 31 (by decide) (by decide) (by decide)

/-- Claim C3 (code bug evidence): a record inserted for end date
2025-01-01 (release 2025-01-02) survives a later reconciliation whose
logical date 2026-06-01 is far past the release date — the merge is a
pure set union and never evicts. -/
theorem c3_no_eviction_eval :
    newJailCodes [("2330", "至114年01月01日")] (⟨2024, 12, 20⟩, 0) = ["2330"]
    ∧ updateJail [] ["2330"] = ["2330"]
    ∧ updateJail ["2330"] (newJailCodes [] (⟨2026, 6, 1⟩, 0)) = ["2330"]
    ∧ dateLt (nextDay ⟨2025, 1, 1⟩) ⟨2026, 6, 1⟩ := by decide

/-- Claim C4: the reconciled watch-list never holds two entries with the
same code (the merge deduplicates, and the dashboard insert refuses
duplicates). -/
theorem c4_at_most_one_per_code (ex nw : List String) (input : String)
    (l : List String) (hl : l.Nodup) :
    (updateJail ex nw).Nodup ∧ ((addToJail input l).1).Nodup :=
  ⟨List.nodup_dedup _, addToJail_nodup hl⟩

/-- Witness for C4 on concrete lists. -/
theorem c4_witness :
    (updateJail ["1101"] ["1101", "2330"]).Nodup
    ∧ ((addToJail "2330" ["1101"]).1).Nodup :=
  c4_at_most_one_per_code ["1101"] ["1101", "2330"] "2330" ["1101"]
    (by decide)

/-- Claim C5: the watch-list reconciliation is idempotent — merging the
same batch twice yields the same store as merging it once. -/
theorem c5_reconcile_idempotent (S B : List String) :
    updateJail (updateJail S B) B = updateJail S B := by
  show ((S ++ B).dedup ++ B).dedup = (S ++ B).dedup
  obtain ⟨t, hts, ht⟩ := List.sublist_suffix_of_union S B.dedup
  have hsb : (S ++ B).dedup = t ++ B.dedup := by
    rw [List.dedup_append, ← ht]
  have hnd : t.Nodup ∧ B.dedup.Nodup ∧ t.Disjoint B.dedup := by
    rw [← List.nodup_append, ← hsb]
    exact List.nodup_dedup _
  rw [hsb, List.append_assoc, List.dedup_append,
      List.Subset.dedup_append_right (List.dedup_subset B),
      List.Disjoint.union_eq hnd.2.2, hnd.1.dedup]

/-- Claim C6: for every valid ROC triple with a 3-digit year, parsing
the rendered 至y年m月d日 text yields Gregorian (y+1911, m, d), and the
1911 offset is never applied to a 4-digit year — such text fails to
parse entirely. -/
theorem c6_roc_conversion (y m d Y : Nat) (hy1 : 100 ≤ y) (hy2 : y ≤ 999)
    (hv : validDateB (y + 1911) m d = true) (hY1 : 1000 ≤ Y)
    (hY2 : Y ≤ 9999) :
    parseDisposalDate (renderROC y m d) = some ⟨y + 1911, m, d⟩
    ∧ parseDisposalDate (renderROC Y m d) = none :=
  ⟨parse_renderROC hy1 hy2 hv, parse_render4 hY1 hY2⟩

/-- Witness for C6 at ROC 114/12/31 and the 4-digit year 2025. -/
theorem c6_witness :
    parseDisposalDate (renderROC 114 12 31) = some ⟨2025, 12, 31⟩
    ∧ parseDisposalDate (renderROC 2025 12 31) = none :=
  c6_roc_conversion 114 12 31 2025 (by decide) (by decide) (by decide)
    (by decide) (by decide)

/-- Counterexample to C7: the slash range 114/12/24~114/12/31 is not
accepted by the converter — no end date is extracted and the record is
not kept even with logical today 2025-12-20. -/
theorem c7_counterexample :
    parseDisposalDate "114/12/24~114/12/31" = none
    ∧ jailKeep "114/12/24~114/12/31" (⟨2025, 12, 20⟩, 0) = false := by
  decide

/-- Amended C7: the converter accepts only the 至y年m月d日 form; the
slash range never parses and the record is dropped for every logical
now. -/
theorem c7_amended_slash_range_unparseable :
    parseDisposalDate "114/12/24~114/12/31" = none
    ∧ ∀ now : Date × Nat, jailKeep "114/12/24~114/12/31" now = false := by
  have h : parseDisposalDate "114/12/24~114/12/31" = none := by decide
  refine ⟨h, fun now => ?_⟩
  unfold jailKeep
  rw [h]

/-- Counterexample to C8: the normalization keeps every digit, so the
field 4931.0 becomes 49310 rather than the claimed 4931. -/
theorem c8_counterexample :
    normCode "4931.0" = "49310" ∧ ¬ normCode "4931.0" = "4931" := by
  decide

/-- Amended C8: normalization keeps all digit characters (4931.0 becomes
49310); the dashboard insert rejects an empty normalized code, while the
recorder appends a history row for every input row regardless of the
code. -/
theorem c8_amended_digit_filter :
    normCode "4931.0" = "49310"
    ∧ (∀ (s : String) (l : List String), normCode s = ""
        → addToJail s l = (l, false))
    ∧ ∀ (rows : List String) (today : String),
        (buildAttentionData rows today).length = rows.length := by
  refine ⟨by decide, fun s l h => ?_, fun rows today => ?_⟩
  · rw [addToJail_eq, if_neg]
    rintro ⟨h1, -⟩
    exact h1 h
  · unfold buildAttentionData
    rw [List.length_map]

/-- Witness for the amended C8: an input with no digit characters leaves
the dashboard list unchanged. -/
theorem c8_witness : addToJail "n.a" ["2330"] = (["2330"], false) :=
  c8_amended_digit_filter.2.1 "n.a" ["2330"] (by decide)

/-- Counterexample to C9: one failing row aborts both the rest of its
document and the following document — the code yields [1] where per-row
skipping would yield [1, 2, 3]. -/
theorem c9_counterexample :
    runBatch [[Except.ok 1, Except.error (), Except.ok 2],
        [Except.ok (3 : Nat)]] = [1]
    ∧ skipBatch [[Except.ok 1, Except.error (), Except.ok 2],
        [Except.ok (3 : Nat)]] = [1, 2, 3]
    ∧ ¬ ([1] : List Nat) = [1, 2, 3] := by decide

/-- Amended C9: a row exception ends the whole fetch-and-extract phase —
rows before the failure are kept, everything after (including later
documents) is skipped; only a document that completes lets processing
continue. -/
theorem c9_amended_abort_on_row_error {α : Type} (pre : List α)
    (post : List (Except Unit α)) (docs : List (List (Except Unit α))) :
    runBatch ((pre.map Except.ok ++ Except.error () :: post) :: docs) = pre
    ∧ runBatch (pre.map Except.ok :: docs) = pre ++ runBatch docs := by
  constructor
  · simp [runBatch, runRows_abort]
  · simp [runBatch, runRows_okmap]

/-- Claim C10: add_to_jail strips the input to its digit characters,
appends and returns True exactly when the result is non-empty and not
already present, and otherwise returns False leaving the list
unchanged. -/
theorem c10_add_to_jail_contract (s : String) (l : List String) :
    ((addToJail s l).2 = true ↔ (¬ normCode s = "" ∧ normCode s ∉ l))
    ∧ ((¬ normCode s = "" ∧ normCode s ∉ l)
        → addToJail s l = (l ++ [normCode s], true))
    ∧ (¬ (¬ normCode s = "" ∧ normCode s ∉ l)
        → addToJail s l = (l, false)) := by
  rw [addToJail_eq]
  by_cases h : ¬ normCode s = "" ∧ normCode s ∉ l
  · rw [if_pos h]
    exact ⟨by simp [h], fun _ => rfl, fun h2 => absurd h h2⟩
  · rw [if_neg h]
    exact ⟨by simp [h], fun h2 => absurd h2 h, fun _ => rfl⟩

/-- Witness for C10: inserting 23-30 (normalized 2330) into a list not
containing it appends it. -/
theorem c10_witness :
    addToJail "23-30" ["1101"] = (["1101"] ++ [normCode "23-30"], true) :=
  (c10_add_to_jail_contract "23-30" ["1101"]).2.1 (by decide)

end StockBot
